import Mathlib

/-!
# Verification of the deep-research driver script

A shallow embedding of the original control-flow logic of
`src/deep_research/agent.py`:

* `run_with_retry` — the retry wrapper around the asynchronous agent
  invocation (source lines 108–120);
* the `__main__` message-trace report loop (source lines 148–191);
* the `__main__` markdown-cleanup step (source lines 129–132).

The external agent call is modelled as an oracle `behavior : Nat → Except ε ρ`
giving the outcome (result or raised exception) of each attempt, and the
wrapper is given an instrumented semantics that records a trace of events
(invocations and sleeps) alongside the final outcome.  Python's `int` is
modelled by `Int`; `range(n)` is empty for `n ≤ 0`.
-/

namespace DeepResearch

/-- An observable event of the retry wrapper:
either an invocation of `agent.ainvoke` on a given 0-based attempt index
with its outcome, or a call to `asyncio.sleep` with the given duration. -/
inductive Event (ε ρ : Type) where
  | invoke (attempt : Nat) (outcome : Except ε ρ)
  | sleep (duration : Nat)
  deriving Repr

/-- The result of running the retry wrapper: the trace of events it produced
and its outcome — `Except.error e` models a raised exception, `Except.ok r`
a normal return of the Python value `r` (`Option ρ`, since the fall-through
return value is `None`). -/
structure RunResult (ε ρ : Type) where
  events : List (Event ε ρ)
  outcome : Except ε (Option ρ)
  deriving Repr

/-- The body of `run_with_retry`'s `for attempt in range(max_retries)` loop,
translated with `rem` = number of iterations still to run
(`rem = max_retries - attempt`), so the source's last-attempt test
`attempt == max_retries - 1` is `rem = 1`, i.e. the inner match on `0`
after the outer `Nat.succ` pattern.

```python
for attempt in range(max_retries):
    try:
        result = await agent.ainvoke({"messages": messages})
        return result
    except Exception as e:
        if attempt == max_retries - 1:
            raise
        await asyncio.sleep(2)
return None
``` -/
def retryLoop (behavior : Nat → Except ε ρ) : Nat → Nat → RunResult ε ρ
  | 0, _ => ⟨[], Except.ok none⟩            -- loop exhausted: `return None`
  | Nat.succ rem, attempt =>
    match behavior attempt with
    | Except.ok r =>                          -- `return result`
      ⟨[Event.invoke attempt (Except.ok r)], Except.ok (some r)⟩
    | Except.error e =>
      match rem with
      | 0 =>                                  -- `attempt == max_retries - 1`: `raise`
        ⟨[Event.invoke attempt (Except.error e)], Except.error e⟩
      | Nat.succ rem' =>                      -- `await asyncio.sleep(2)`, next iteration
        let rest := retryLoop behavior (Nat.succ rem') (attempt + 1)
        ⟨Event.invoke attempt (Except.error e) :: Event.sleep 2 :: rest.events,
         rest.outcome⟩

/-- `run_with_retry(agent, messages, max_retries)` (source lines 108–120).
`max_retries` is a Python `int`, so it is an `Int` here; `range(max_retries)`
iterates `max_retries.toNat` times (empty for non-positive values). -/
def run_with_retry (behavior : Nat → Except ε ρ) (max_retries : Int) : RunResult ε ρ :=
  retryLoop behavior max_retries.toNat 0

/-- Is the event an invocation of the underlying agent call? -/
def Event.isInvoke : Event ε ρ → Bool
  | Event.invoke _ _ => true
  | Event.sleep _ => false

/-- Is the event a sleep? -/
def Event.isSleep : Event ε ρ → Bool
  | Event.invoke _ _ => false
  | Event.sleep _ => true

/-- Number of times the underlying agent call was invoked in a trace. -/
def numCalls (evs : List (Event ε ρ)) : Nat := evs.countP Event.isInvoke

/-- Number of sleeps in a trace. -/
def numSleeps (evs : List (Event ε ρ)) : Nat := evs.countP Event.isSleep

/-! ## The `__main__` report loop

The messages of the invocation result are classified by an
`isinstance` chain over `HumanMessage` / `AIMessage` / `ToolMessage`;
per the data model these are the three roles a message can have, so
`Message` is the corresponding closed sum type.  An `AIMessage`
optionally carries `tool_calls`, each tool call being a dict with a
`name` and optionally an `args` mapping; `tool_calls? = none` models a
message without the attribute or with `None` there, `some []` an empty
list (both falsy in the source's guard
`if hasattr(msg, 'tool_calls') and msg.tool_calls:`). -/

/-- A tool invocation request embedded in an agent-authored message:
the dict `{"name": ..., "args": {...}}`.  `args? = none` models a dict
with no `"args"` key, read in the source via `tc.get('args', {})`. -/
structure ToolCall where
  name : String
  args? : Option (List (String × String))
  deriving Repr, DecidableEq

/-- `tc.get('args', {})` — the argument mapping of a tool call, defaulting
to the empty mapping when absent. -/
def ToolCall.getArgs (tc : ToolCall) : List (String × String) :=
  tc.args?.getD []

/-- One entry of the conversation, a closed sum over the three roles the
report loop distinguishes. -/
inductive Message where
  | human (content : String)
  | ai (content : String) (tool_calls? : Option (List ToolCall))
  | tool (name? : Option String) (content : String)
  deriving Repr, DecidableEq

/-- The mutable locals of the report loop:
the message list being iterated (owned by the invocation result) and the
accumulators `human_count`, `ai_count`, `tool_count`, `write_file_calls`
initialised before the loop (source lines 152–153). -/
structure LoopState where
  msgs : List Message
  human_count : Nat
  ai_count : Nat
  tool_count : Nat
  write_file_calls : List ToolCall
  deriving Repr, DecidableEq

/-- One iteration of `for msg in result["messages"]:` (source lines 155–185),
with the `print` side effects dropped.  An agent-authored message's tool
calls are scanned in order and those named `"write_file"` appended to
`write_file_calls` (the inner
`for i, tc in enumerate(msg.tool_calls): ... if tool_name == 'write_file':
write_file_calls.append(tc)`, i.e. an in-order filter); the other two
special-cased names (`'task'`) and the default branch only print. -/
def reportLoopBody (st : LoopState) (msg : Message) : LoopState :=
  match msg with
  | Message.human _ =>
    { st with human_count := st.human_count + 1 }
  | Message.ai _ tool_calls? =>
    let st := { st with ai_count := st.ai_count + 1 }
    match tool_calls? with
    | none => st                                -- no `tool_calls` attribute / `None`
    | some [] => st                             -- empty list is falsy: guard not taken
    | some (tc :: tcs) =>
      { st with write_file_calls :=
          st.write_file_calls ++ (tc :: tcs).filter (fun c => c.name == "write_file") }
  | Message.tool _ _ =>
    { st with tool_count := st.tool_count + 1 }

/-- The whole report loop, run from the initial state
`human_count = ai_count = tool_count = 0`, `write_file_calls = []`. -/
def reportExec (msgs : List Message) : LoopState :=
  msgs.foldl reportLoopBody ⟨msgs, 0, 0, 0, []⟩

/-- The argument mappings echoed for the recorded write-file calls: for each
appended call, the source prints `f"Arguments: {tc.get('args', {})}"`. -/
def echoedWriteFileArgs (msgs : List Message) : List (List (String × String)) :=
  (reportExec msgs).write_file_calls.map ToolCall.getArgs

/-- The tool calls carried by a message: nonempty only for agent-authored
messages with a present `tool_calls` list. -/
def Message.toolCalls : Message → List ToolCall
  | Message.ai _ (some tcs) => tcs
  | _ => []

/-! ## The `__main__` markdown cleanup

`for file in research_output_dir.glob("*.md"): file.unlink()`
(source lines 129–132).  The output directory is modelled as the list of
its entry names; `pathlib`'s pattern `*.md` matches exactly the names
ending in `".md"` (fnmatch semantics, `*` matching any prefix), and each
matching entry is unlinked. -/

/-- Does a directory entry match the glob pattern `*.md`?  Under fnmatch
semantics `*` matches any (possibly empty) sequence of characters, so the
pattern matches exactly the names whose code-point sequence ends in
`.md`. -/
def matchesMdGlob (name : String) : Bool := ".md".data.isSuffixOf name.data

/-- The cleanup step: delete every entry matching `*.md`; what remains are
the entries that do not match. -/
def cleanupMd (dir : List String) : List String :=
  dir.filter (fun f => !(matchesMdGlob f))

/-! ## Discipline of the retry delay

The placement of the fixed 2-unit delay in a retry trace: a trace is
either empty, a single successful invocation (the wrapper returns at
once, no delay), a single failed invocation (the final attempt raised,
no delay), or a failed invocation followed by exactly one `sleep 2` and
then the next invocation, recursively.  Sleeps can occur nowhere else. -/
inductive DelayDiscipline {ε ρ : Type} : List (Event ε ρ) → Prop where
  | nil : DelayDiscipline []
  | success (a : Nat) (r : ρ) :
      DelayDiscipline [Event.invoke a (Except.ok r)]
  | finalFailure (a : Nat) (e : ε) :
      DelayDiscipline [Event.invoke a (Except.error e)]
  | failureThenRetry (a : Nat) (e : ε) (b : Nat) (o : Except ε ρ) (t : List (Event ε ρ)) :
      DelayDiscipline (Event.invoke b o :: t) →
      DelayDiscipline
        (Event.invoke a (Except.error e) :: Event.sleep 2 :: Event.invoke b o :: t)

section RetryLemmas

variable {ε ρ : Type} (behavior : Nat → Except ε ρ)

lemma numCalls_nil : numCalls ([] : List (Event ε ρ)) = 0 := rfl

lemma numSleeps_nil : numSleeps ([] : List (Event ε ρ)) = 0 := rfl

lemma numCalls_cons_invoke (a : Nat) (o : Except ε ρ) (t : List (Event ε ρ)) :
    numCalls (Event.invoke a o :: t) = numCalls t + 1 := by
  simp [numCalls, List.countP_cons, Event.isInvoke]

lemma numCalls_cons_sleep (d : Nat) (t : List (Event ε ρ)) :
    numCalls (Event.sleep d :: t) = numCalls t := by
  simp [numCalls, List.countP_cons, Event.isInvoke]

lemma numSleeps_cons_invoke (a : Nat) (o : Except ε ρ) (t : List (Event ε ρ)) :
    numSleeps (Event.invoke a o :: t) = numSleeps t := by
  simp [numSleeps, List.countP_cons, Event.isSleep]

lemma numSleeps_cons_sleep (d : Nat) (t : List (Event ε ρ)) :
    numSleeps (Event.sleep d :: t) = numSleeps t + 1 := by
  simp [numSleeps, List.countP_cons, Event.isSleep]

/-- One-step unfolding of `retryLoop` on a positive remaining budget. -/
lemma retryLoop_succ (rem attempt : Nat) :
    retryLoop behavior (rem + 1) attempt =
      match behavior attempt with
      | Except.ok r =>
        ⟨[Event.invoke attempt (Except.ok r)], Except.ok (some r)⟩
      | Except.error e =>
        match rem with
        | 0 => ⟨[Event.invoke attempt (Except.error e)], Except.error e⟩
        | Nat.succ rem' =>
          ⟨Event.invoke attempt (Except.error e) :: Event.sleep 2 ::
             (retryLoop behavior (rem' + 1) (attempt + 1)).events,
           (retryLoop behavior (rem' + 1) (attempt + 1)).outcome⟩ := by
  rw [retryLoop.eq_def]

/-- If the first `k` attempts (counting from `attempt`) fail and attempt
`attempt + k` succeeds within the remaining budget, the loop returns that
result after exactly `k + 1` invocations. -/
lemma retryLoop_success (k : Nat) :
    ∀ (rem attempt : Nat) (r : ρ), k < rem →
      (∀ j, j < k → ∃ e, behavior (attempt + j) = Except.error e) →
      behavior (attempt + k) = Except.ok r →
      (retryLoop behavior rem attempt).outcome = Except.ok (some r) ∧
        numCalls (retryLoop behavior rem attempt).events = k + 1 := by
  induction k with
  | zero =>
    intro rem attempt r hlt _ hok
    obtain ⟨rem', rfl⟩ : ∃ rem', rem = rem' + 1 :=
      ⟨rem - 1, by omega⟩
    rw [Nat.add_zero] at hok
    rw [retryLoop_succ, hok]
    exact ⟨rfl, by rw [numCalls_cons_invoke, numCalls_nil]⟩
  | succ k ih =>
    intro rem attempt r hlt hfail hok
    obtain ⟨e, he⟩ := hfail 0 (Nat.succ_pos k)
    rw [Nat.add_zero] at he
    obtain ⟨rem', rfl⟩ : ∃ rem', rem = rem' + 1 + 1 :=
      ⟨rem - 2, by omega⟩
    rw [retryLoop_succ, he]
    have hfail' : ∀ j, j < k → ∃ e, behavior (attempt + 1 + j) = Except.error e := by
      intro j hj
      obtain ⟨e', he'⟩ := hfail (j + 1) (by omega)
      exact ⟨e', by rw [show attempt + 1 + j = attempt + (j + 1) by omega]; exact he'⟩
    have hok' : behavior (attempt + 1 + k) = Except.ok r := by
      rw [show attempt + 1 + k = attempt + (k + 1) by omega]; exact hok
    obtain ⟨h1, h2⟩ := ih (rem' + 1) (attempt + 1) r (by omega) hfail' hok'
    exact ⟨h1, by rw [numCalls_cons_invoke, numCalls_cons_sleep, h2]⟩

/-- If every attempt fails, the loop performs all `rem` remaining attempts and
re-raises the error of the last one. -/
lemma retryLoop_allFail (errs : Nat → ε)
    (hfail : ∀ j, behavior j = Except.error (errs j)) :
    ∀ (rem' attempt : Nat),
      (retryLoop behavior (rem' + 1) attempt).outcome
          = Except.error (errs (attempt + rem')) ∧
        numCalls (retryLoop behavior (rem' + 1) attempt).events = rem' + 1 := by
  intro rem'
  induction rem' with
  | zero =>
    intro attempt
    rw [retryLoop_succ, hfail attempt]
    exact ⟨rfl, by rw [numCalls_cons_invoke, numCalls_nil]⟩
  | succ rem'' ih =>
    intro attempt
    rw [retryLoop_succ, hfail attempt]
    obtain ⟨h1, h2⟩ := ih (attempt + 1)
    refine ⟨?_, ?_⟩
    · rw [h1, show attempt + 1 + rem'' = attempt + (rem'' + 1) from by omega]
    · rw [numCalls_cons_invoke, numCalls_cons_sleep, h2]

/-- A nonempty retry trace starts with an invocation. -/
lemma retryLoop_head (rem' attempt : Nat) :
    ∃ a o t, (retryLoop behavior (rem' + 1) attempt).events
        = Event.invoke a o :: t := by
  cases hb : behavior attempt with
  | ok r =>
    refine ⟨attempt, Except.ok r, [], ?_⟩
    rw [retryLoop_succ, hb]
  | error e =>
    cases rem' with
    | zero =>
      refine ⟨attempt, Except.error e, [], ?_⟩
      rw [retryLoop_succ, hb]
    | succ rem'' =>
      refine ⟨attempt, Except.error e,
        Event.sleep 2 :: (retryLoop behavior (rem'' + 1) (attempt + 1)).events, ?_⟩
      rw [retryLoop_succ, hb]

/-- Every retry trace obeys the delay discipline. -/
lemma retryLoop_discipline :
    ∀ (rem attempt : Nat), DelayDiscipline (retryLoop behavior rem attempt).events := by
  intro rem
  induction rem with
  | zero => intro attempt; exact DelayDiscipline.nil
  | succ rem ih =>
    intro attempt
    cases hb : behavior attempt with
    | ok r =>
      rw [retryLoop_succ, hb]
      exact DelayDiscipline.success attempt r
    | error e =>
      cases rem with
      | zero =>
        rw [retryLoop_succ, hb]
        exact DelayDiscipline.finalFailure attempt e
      | succ rem' =>
        rw [retryLoop_succ, hb]
        obtain ⟨b, o, t, ht⟩ := retryLoop_head behavior rem' (attempt + 1)
        show DelayDiscipline
          (Event.invoke attempt (Except.error e) :: Event.sleep 2 ::
            (retryLoop behavior (rem' + 1) (attempt + 1)).events)
        rw [ht]
        exact DelayDiscipline.failureThenRetry attempt e b o t (ht ▸ ih (attempt + 1))

/-- In a nonempty retry trace there is exactly one sleep between consecutive
invocations: sleeps number one fewer than invocations. -/
lemma retryLoop_sleep_count :
    ∀ (rem' attempt : Nat),
      numSleeps (retryLoop behavior (rem' + 1) attempt).events + 1
        = numCalls (retryLoop behavior (rem' + 1) attempt).events := by
  intro rem'
  induction rem' with
  | zero =>
    intro attempt
    cases hb : behavior attempt with
    | ok r =>
      rw [retryLoop_succ, hb]
      rw [numSleeps_cons_invoke, numSleeps_nil, numCalls_cons_invoke, numCalls_nil]
    | error e =>
      rw [retryLoop_succ, hb]
      rw [numSleeps_cons_invoke, numSleeps_nil, numCalls_cons_invoke, numCalls_nil]
  | succ rem'' ih =>
    intro attempt
    cases hb : behavior attempt with
    | ok r =>
      rw [retryLoop_succ, hb]
      rw [numSleeps_cons_invoke, numSleeps_nil, numCalls_cons_invoke, numCalls_nil]
    | error e =>
      rw [retryLoop_succ, hb]
      have := ih (attempt + 1)
      rw [numCalls_cons_invoke, numCalls_cons_sleep,
        numSleeps_cons_invoke, numSleeps_cons_sleep]
      omega

end RetryLemmas

/-- All tool calls carried by a sequence of messages, in order. -/
def allToolCalls : List Message → List ToolCall
  | [] => []
  | m :: msgs => m.toolCalls ++ allToolCalls msgs

section ReportLemmas

lemma reportLoopBody_msgs (st : LoopState) (m : Message) :
    (reportLoopBody st m).msgs = st.msgs := by
  cases m with
  | human c => rfl
  | ai c tcs =>
    cases tcs with
    | none => rfl
    | some l =>
      cases l with
      | nil => rfl
      | cons tc tcs => rfl
  | tool n c => rfl

lemma reportLoopBody_counts (st : LoopState) (m : Message) :
    (reportLoopBody st m).human_count + (reportLoopBody st m).ai_count
        + (reportLoopBody st m).tool_count
      = st.human_count + st.ai_count + st.tool_count + 1 := by
  cases m with
  | human c =>
    show st.human_count + 1 + st.ai_count + st.tool_count = _
    omega
  | ai c tcs =>
    cases tcs with
    | none =>
      show st.human_count + (st.ai_count + 1) + st.tool_count = _
      omega
    | some l =>
      cases l with
      | nil =>
        show st.human_count + (st.ai_count + 1) + st.tool_count = _
        omega
      | cons tc tcs =>
        show st.human_count + (st.ai_count + 1) + st.tool_count = _
        omega
  | tool n c =>
    show st.human_count + st.ai_count + (st.tool_count + 1) = _
    omega

lemma reportLoopBody_write_file_calls (st : LoopState) (m : Message) :
    (reportLoopBody st m).write_file_calls
      = st.write_file_calls ++ m.toolCalls.filter (fun c => c.name == "write_file") := by
  cases m with
  | human c =>
    show st.write_file_calls = _
    simp [Message.toolCalls]
  | ai c tcs =>
    cases tcs with
    | none =>
      show st.write_file_calls = _
      simp [Message.toolCalls]
    | some l =>
      cases l with
      | nil =>
        show st.write_file_calls = _
        simp [Message.toolCalls]
      | cons tc tcs => rfl
  | tool n c =>
    show st.write_file_calls = _
    simp [Message.toolCalls]

lemma reportFold_msgs (msgs : List Message) :
    ∀ st : LoopState, (msgs.foldl reportLoopBody st).msgs = st.msgs := by
  induction msgs with
  | nil => intro st; rfl
  | cons m msgs ih =>
    intro st
    rw [List.foldl_cons, ih, reportLoopBody_msgs]

lemma reportFold_counts (msgs : List Message) :
    ∀ st : LoopState,
      (msgs.foldl reportLoopBody st).human_count
          + (msgs.foldl reportLoopBody st).ai_count
          + (msgs.foldl reportLoopBody st).tool_count
        = st.human_count + st.ai_count + st.tool_count + msgs.length := by
  induction msgs with
  | nil => intro st; simp
  | cons m msgs ih =>
    intro st
    rw [List.foldl_cons, ih (reportLoopBody st m), reportLoopBody_counts,
      List.length_cons]
    omega

lemma reportFold_write_file_calls (msgs : List Message) :
    ∀ st : LoopState,
      (msgs.foldl reportLoopBody st).write_file_calls
        = st.write_file_calls
            ++ (allToolCalls msgs).filter (fun c => c.name == "write_file") := by
  induction msgs with
  | nil => intro st; simp [allToolCalls]
  | cons m msgs ih =>
    intro st
    rw [List.foldl_cons, ih (reportLoopBody st m), reportLoopBody_write_file_calls,
      show allToolCalls (m :: msgs) = m.toolCalls ++ allToolCalls msgs from rfl,
      List.filter_append, List.append_assoc]

end ReportLemmas

/-! ## Claim theorems -/

/-- C1: for every `max_retries ≥ 1` and every attempt index `k` with
`1 ≤ k ≤ max_retries`, if the underlying agent invocation raises on each of
the first `k - 1` attempts and succeeds on attempt `k` (0-based index
`k - 1`), then `run_with_retry` returns the result of that `k`-th invocation
and invokes the underlying call exactly `k` times, with no further attempts
after the success. -/
theorem run_with_retry_succeeds_on_attempt_k {ε ρ : Type}
    (behavior : Nat → Except ε ρ) (max_retries : Int) (k : Nat) (r : ρ)
    (hm : 1 ≤ max_retries) (hk1 : 1 ≤ k) (hk2 : (k : Int) ≤ max_retries)
    (hfail : ∀ j, j + 1 < k → ∃ e, behavior j = Except.error e)
    (hok : behavior (k - 1) = Except.ok r) :
    (run_with_retry behavior max_retries).outcome = Except.ok (some r) ∧
      numCalls (run_with_retry behavior max_retries).events = k := by
  have hle : k ≤ max_retries.toNat := by omega
  have h := retryLoop_success behavior (k - 1) max_retries.toNat 0 r (by omega)
    (fun j hj => by simpa using hfail j (by omega))
    (by simpa using hok)
  rw [run_with_retry]
  exact ⟨h.1, by rw [h.2]; omega⟩

/-- Witness for C1: with a call that fails on attempts 1 and 2 and succeeds
on attempt 3 out of `max_retries = 3`, the wrapper returns that result after
exactly 3 invocations. -/
theorem run_with_retry_succeeds_on_attempt_k_witness :
    (run_with_retry (fun n => if n < 2 then Except.error n else Except.ok 7)
        (3 : Int)).outcome = Except.ok (some 7) ∧
      numCalls (run_with_retry (fun n => if n < 2 then Except.error n else Except.ok 7)
          (3 : Int)).events = 3 :=
  run_with_retry_succeeds_on_attempt_k
    (fun n => if n < 2 then Except.error n else Except.ok 7) 3 3 7
    (by norm_num) (by norm_num) (by norm_num)
    (fun j hj => ⟨j, by
      show (if j < 2 then Except.error j else Except.ok 7) = Except.error j
      rw [if_pos (show j < 2 by omega)]⟩)
    (by rfl)

/-- C2: for every `max_retries ≥ 1`, if the underlying agent invocation
raises on every attempt, then `run_with_retry` invokes the underlying call
exactly `max_retries` times and re-raises the error of the last
(`max_retries`-th) attempt; no error is swallowed. -/
theorem run_with_retry_exhausts_and_reraises {ε ρ : Type}
    (behavior : Nat → Except ε ρ) (errs : Nat → ε) (max_retries : Int)
    (hm : 1 ≤ max_retries)
    (hfail : ∀ j, behavior j = Except.error (errs j)) :
    (run_with_retry behavior max_retries).outcome
        = Except.error (errs (max_retries.toNat - 1)) ∧
      numCalls (run_with_retry behavior max_retries).events = max_retries.toNat := by
  obtain ⟨rem', hrem⟩ : ∃ rem', max_retries.toNat = rem' + 1 :=
    ⟨max_retries.toNat - 1, by omega⟩
  have h := retryLoop_allFail behavior errs hfail rem' 0
  rw [run_with_retry, hrem]
  exact ⟨by rw [h.1, show 0 + rem' = rem' + 1 - 1 from by omega], h.2⟩

/-- Witness for C2: with a call that always raises and `max_retries = 2`, the
wrapper makes exactly 2 attempts and re-raises the error of attempt 2. -/
theorem run_with_retry_exhausts_and_reraises_witness :
    (run_with_retry (fun n => (Except.error n : Except Nat Nat)) (2 : Int)).outcome
        = Except.error ((2 : Int).toNat - 1) ∧
      numCalls (run_with_retry (fun n => (Except.error n : Except Nat Nat))
          (2 : Int)).events = (2 : Int).toNat :=
  run_with_retry_exhausts_and_reraises (fun n => Except.error n) (fun j => j) 2
    (by norm_num) (fun j => rfl)

/-- C3: the sum of the per-role counts produced by the report step (human
messages + AI messages + tool messages) equals the total number of messages
in the input sequence. -/
theorem report_role_counts_sum (msgs : List Message) :
    (reportExec msgs).human_count + (reportExec msgs).ai_count
        + (reportExec msgs).tool_count
      = msgs.length := by
  have h := reportFold_counts msgs ⟨msgs, 0, 0, 0, []⟩
  rw [reportExec]
  simpa using h

/-- C4: if `max_retries` is 0, `run_with_retry` returns (the fall-through
`None`) without ever invoking the underlying agent call: the produced trace
is empty, so the loop body was never entered. -/
theorem run_with_retry_zero_attempts {ε ρ : Type} (behavior : Nat → Except ε ρ) :
    run_with_retry behavior 0 = ⟨[], Except.ok none⟩ ∧
      numCalls (run_with_retry behavior 0).events = 0 :=
  ⟨rfl, rfl⟩

/-- C5: the report step is total on a message lacking tool-call data (no
`tool_calls` attribute / `None`, or an empty list): it never raises there,
and such a message contributes only `ai_count + 1` — zero tool invocations
are recorded (`write_file_calls` and the other counters are unchanged). -/
theorem report_missing_tool_calls_contributes_zero (st : LoopState)
    (content : String) (tcs? : Option (List ToolCall))
    (h : tcs? = none ∨ tcs? = some []) :
    reportLoopBody st (Message.ai content tcs?)
      = { st with ai_count := st.ai_count + 1 } := by
  rcases h with h | h <;> subst h <;> rfl

/-- Witness for C5: an agent message without tool-call data increments only
the AI counter. -/
theorem report_missing_tool_calls_contributes_zero_witness :
    reportLoopBody ⟨[], 0, 0, 0, []⟩ (Message.ai "no tools" none)
      = (⟨[], 0, 1, 0, []⟩ : LoopState) :=
  report_missing_tool_calls_contributes_zero ⟨[], 0, 0, 0, []⟩ "no tools" none
    (Or.inl rfl)

/-- C6: if the agent-authored messages of a sequence carry exactly one tool
call named `"write_file"`, the report records exactly that one call in
`write_file_calls` (so the summary counts one write-file call) and echoes
that call's argument mapping. -/
theorem report_single_write_file_call (msgs : List Message) (tc : ToolCall)
    (h : (allToolCalls msgs).filter (fun c => c.name == "write_file") = [tc]) :
    (reportExec msgs).write_file_calls = [tc] ∧
      echoedWriteFileArgs msgs = [tc.getArgs] := by
  have hw : (reportExec msgs).write_file_calls = [tc] := by
    rw [reportExec, reportFold_write_file_calls, h]
    rfl
  exact ⟨hw, by rw [echoedWriteFileArgs, hw]; rfl⟩

/-- Witness for C6: a sequence whose agent message requests one
`write_file` call with arguments
`{"file_path": "/final_report.md", "content": "..."}` (plus a `task` call)
yields exactly that call recorded and its argument mapping echoed. -/
theorem report_single_write_file_call_witness :
    (reportExec
        [Message.human "research context engineering approaches used to build AI agents",
         Message.ai ""
           (some [⟨"write_file", some [("file_path", "/final_report.md"), ("content", "...")]⟩]),
         Message.tool (some "write_file") "ok"]).write_file_calls
      = [⟨"write_file", some [("file_path", "/final_report.md"), ("content", "...")]⟩] ∧
      echoedWriteFileArgs
        [Message.human "research context engineering approaches used to build AI agents",
         Message.ai ""
           (some [⟨"write_file", some [("file_path", "/final_report.md"), ("content", "...")]⟩]),
         Message.tool (some "write_file") "ok"]
      = [ToolCall.getArgs ⟨"write_file", some [("file_path", "/final_report.md"), ("content", "...")]⟩] :=
  report_single_write_file_call _
    ⟨"write_file", some [("file_path", "/final_report.md"), ("content", "...")]⟩
    (by decide)

/-- C7: the cleanup step deletes every entry of the output directory that
matches `*.md`: afterwards the directory holds zero `.md` files, and in
particular neither `research_request.md` nor `final_report.md` survives. -/
theorem cleanup_leaves_no_md_files (dir : List String) :
    (cleanupMd dir).countP matchesMdGlob = 0 ∧
      "research_request.md" ∉ cleanupMd dir ∧
      "final_report.md" ∉ cleanupMd dir := by
  refine ⟨?_, ?_, ?_⟩
  · rw [List.countP_eq_zero]
    intro a ha
    have h := (List.mem_filter.mp ha).2
    simp only [Bool.not_eq_true'] at h
    simp [h]
  · intro hmem
    have h := (List.mem_filter.mp hmem).2
    rw [show matchesMdGlob "research_request.md" = true from by decide] at h
    simp at h
  · intro hmem
    have h := (List.mem_filter.mp hmem).2
    rw [show matchesMdGlob "final_report.md" = true from by decide] at h
    simp at h

/-- C8: in any retry trace, the fixed 2-unit delay occurs exactly once
between each failed non-final attempt and the next attempt, and nowhere
else — never after a successful invocation (which ends the trace) and never
after the final failed invocation (which re-raises).  Moreover, in a
nonempty trace the sleeps number exactly one fewer than the invocations, so
a delay is taken if and only if a further attempt follows. -/
theorem run_with_retry_delay_placement {ε ρ : Type}
    (behavior : Nat → Except ε ρ) (max_retries : Int) :
    DelayDiscipline (run_with_retry behavior max_retries).events ∧
      ((run_with_retry behavior max_retries).events = [] ∨
        numSleeps (run_with_retry behavior max_retries).events + 1
          = numCalls (run_with_retry behavior max_retries).events) := by
  refine ⟨retryLoop_discipline behavior max_retries.toNat 0, ?_⟩
  rcases Nat.eq_zero_or_pos max_retries.toNat with h | h
  · left
    rw [run_with_retry, h]
    rfl
  · right
    obtain ⟨rem', hrem⟩ : ∃ rem', max_retries.toNat = rem' + 1 :=
      ⟨max_retries.toNat - 1, by omega⟩
    rw [run_with_retry, hrem]
    exact retryLoop_sleep_count behavior rem' 0

/-- C9: the report step never mutates the message sequence or any message in
it: the `msgs` component of the loop state — the sequence together with the
content, role and tool-call fields of every message — is identical before
and after the loop; only the local counters change. -/
theorem report_preserves_messages (msgs : List Message) :
    (reportExec msgs).msgs = msgs := by
  rw [reportExec, reportFold_msgs]

/-- C10: for every `max_retries ≤ 0` (negative values included), the loop
range is empty, so `run_with_retry` returns the fall-through value `None`
without invoking the underlying call and without sleeping: the trace is
empty and the outcome is a normal return of `None`. -/
theorem run_with_retry_nonpositive {ε ρ : Type} (behavior : Nat → Except ε ρ)
    (max_retries : Int) (h : max_retries ≤ 0) :
    run_with_retry behavior max_retries = ⟨[], Except.ok none⟩ := by
  rw [run_with_retry, Int.toNat_of_nonpos h]
  rfl

/-- Witness for C10: at `max_retries = -5` the wrapper produces no events and
returns `None`. -/
theorem run_with_retry_nonpositive_witness :
    run_with_retry (fun _ => (Except.ok 0 : Except Nat Nat)) (-5 : Int)
      = ⟨[], Except.ok none⟩ :=
  run_with_retry_nonpositive (fun _ => Except.ok 0) (-5) (by norm_num)

end DeepResearch

